import Mathlib

/-!
# simple_chat_server.c: registries, membership and broadcast

A shallow embedding of `src/simple_chat_server.c`.

* A C string is the list of its bytes before the terminating NUL, one `Char` per byte.
* The two global linked lists (`users`, `rooms`) are lists of heap nodes, head first.
  A node is a pair of its address and its contents; `malloc` hands out the next unused
  address. A `User*` or `Room*` is an address, `NULL` is `none`.
* `send` is recorded as a `Delivery` (destination socket, bytes sent); every function that
  sends returns the deliveries it made, in order.
* The name fields are `char[32]` filled by `strncpy(dst, src, 31)`, which pads a source
  shorter than 31 bytes with NUL: the field then reads as the source. No code writes byte 31
  of a field. In a user node that byte is NUL (it is never written, neither in the node nor
  in a freed user node that `malloc` hands out again), so `username` reads as the first 31
  bytes copied. In a room node made from a freed user node byte 31 can hold a stale byte, and
  a name of 31 bytes or more then reads on into it and into `users`. For such a name
  `create_room` gives the first 31 bytes, which is what a zeroed chunk reads; the statements
  about room names below are for names shorter than 31 bytes.
* `handle_client` is cut at its receive loop: the code before the loop
  (`handle_client_setup`), one pass of the loop body (`handle_client_command`), the code
  after the loop (`handle_client_cleanup`). The split of a received buffer by `sscanf`
  into `command` and `arg` is an input.
* Each function body is run atomically (the mutexes of the source are not modelled), and
  so is each event of `step`.
* A function that only reads through a pointer argument takes the pointed-to value; a
  function that writes through it returns the new value. The callers in `handle_client`
  dereference and write back (`call_join_room`, `call_broadcast_room`).
-/

namespace ChatServer

/-- A C string: the bytes before the terminating NUL, one `Char` per byte. -/
abbrev CStr := List Char

/-- Heap address of a `malloc`ed node. -/
abbrev Ptr := Nat

def MAX_USERNAME : Nat := 32

def BUFFER_SIZE : Nat := 1024

/-- The text left in a destination by `strncpy(dst, src, n)` when the byte after the first
`n` is NUL: the first `n` bytes of `src` (a shorter `src` is copied whole and NUL padded). -/
def strncpy (src : CStr) (n : Nat) : CStr := src.take n

/-- The text left by `snprintf(dst, size, fmt, ...)`, given the fully formatted text: at most
`size - 1` bytes are written before the terminating NUL. -/
def snprintf (size : Nat) (formatted : CStr) : CStr := formatted.take (size - 1)

/-- The conversion `%d`. -/
def fmt_d : Int → CStr
  | Int.ofNat n => Nat.toDigits 10 n
  | Int.negSucc n => '-' :: Nat.toDigits 10 (n + 1)

/-- The fields `socket` and `username` of `struct User` (`next` is the list structure). -/
structure User where
  socket : Int
  username : CStr
  deriving DecidableEq, Repr

/-- The fields `name` and `users` of `struct Room`; `users` is the member list, head first. -/
structure Room where
  name : CStr
  users : List User
  deriving DecidableEq, Repr

/-- One call `send(dest, text, strlen(text), 0)`. -/
structure Delivery where
  dest : Int
  text : CStr
  deriving DecidableEq, Repr

/-- The globals `users` and `rooms` (head first) and the next address `malloc` returns. -/
structure Server where
  users : List (Ptr × User)
  rooms : List (Ptr × Room)
  brk : Nat
  deriving DecidableEq, Repr

/-- Reading through a pointer: the contents of the node at address `p`. -/
def deref {α : Type} : List (Ptr × α) → Ptr → Option α
  | [], _ => none
  | node :: rest, p => if node.1 = p then some node.2 else deref rest p

/-- Writing through a pointer: the node at address `p` gets the contents `v`. -/
def store {α : Type} (heap : List (Ptr × α)) (p : Ptr) (v : α) : List (Ptr × α) :=
  heap.map (fun node => if node.1 = p then (node.1, v) else node)

/-! ## User management functions -/

/-- Function `add_user`: a new node is linked in at the head of `users`; its address is returned. -/
def add_user (s : Server) (socket : Int) (username : CStr) : Server × Ptr :=
  let new_user : User := ⟨socket, strncpy username (MAX_USERNAME - 1)⟩
  (⟨(s.brk, new_user) :: s.users, s.rooms, s.brk + 1⟩, s.brk)

/-- The loop of `remove_user`: unlink the first node whose socket is `socket`, then `break`. -/
def remove_user_loop (socket : Int) : List (Ptr × User) → List (Ptr × User)
  | [] => []
  | current :: next =>
    if current.2.socket = socket then next else current :: remove_user_loop socket next

/-- Function `remove_user`: the first node on this socket is unlinked and freed. -/
def remove_user (s : Server) (socket : Int) : Server :=
  ⟨remove_user_loop socket s.users, s.rooms, s.brk⟩

/-! ## Room management functions -/

/-- Function `create_room`: a new room with no members is linked in at the head of `rooms`.
The name is exact for a `room_name` shorter than 31 bytes, which `strncpy` pads with NUL. For
a longer one the source leaves the field without a terminator; the name given here is what
the field reads when byte 31 of the chunk is NUL. -/
def create_room (s : Server) (room_name : CStr) : Server × Ptr :=
  let new_room : Room := ⟨strncpy room_name (MAX_USERNAME - 1), []⟩
  (⟨s.users, (s.brk, new_room) :: s.rooms, s.brk + 1⟩, s.brk)

/-- The loop of `broadcast_room` over the member list. -/
def broadcast_loop (room_name : CStr) (message : CStr) (sender : User) :
    List User → List Delivery
  | [] => []
  | current :: next =>
    if current.socket ≠ sender.socket then
      let formatted_msg := snprintf BUFFER_SIZE
        ("[".toList ++ room_name ++ "] ".toList ++ sender.username ++ ": ".toList
          ++ message ++ "\n".toList)
      ⟨current.socket, formatted_msg⟩ :: broadcast_loop room_name message sender next
    else broadcast_loop room_name message sender next

/-- Function `broadcast_room(room, message, sender)`, on the values `*room` and `*sender`. -/
def broadcast_room (room : Room) (message : CStr) (sender : User) : List Delivery :=
  broadcast_loop room.name message sender room.users

/-- Function `join_room(user, room)`, on the values `*user` and `*room`: the new `*room` and the
deliveries of the notice. The member entry is a copy of `*user`. -/
def join_room (user : User) (room : Room) : Room × List Delivery :=
  let new_user : User := user
  let room1 : Room := ⟨room.name, new_user :: room.users⟩
  let msg := snprintf BUFFER_SIZE
    ("User ".toList ++ user.username ++ " joined room ".toList ++ room1.name ++ "\n".toList)
  (room1, broadcast_room room1 msg user)

/-- Modelled from the spec: `leave_room` is declared and called in the source but its
definition is missing. The spec has it remove the session id from the room's member set, a
no-op if the session is not a member. -/
def leave_room (user : User) (room : Room) : Room :=
  ⟨room.name, room.users.filter (fun member => member.socket ≠ user.socket)⟩

/-! ## Utility functions -/

/-- The loop of `find_user_by_name`: the first node, from the head, with this username. -/
def find_user_loop (username : CStr) : List (Ptr × User) → Option (Ptr × User)
  | [] => none
  | current :: next =>
    if current.2.username = username then some current else find_user_loop username next

/-- Function `find_user_by_name`: the node found (address and contents), or `none` for `NULL`. -/
def find_user_by_name (s : Server) (username : CStr) : Option (Ptr × User) :=
  find_user_loop username s.users

/-- The loop of `find_room_by_name`: the first node, from the head, with this name. -/
def find_room_loop (room_name : CStr) : List (Ptr × Room) → Option (Ptr × Room)
  | [] => none
  | current :: next =>
    if current.2.name = room_name then some current else find_room_loop room_name next

/-- Function `find_room_by_name`: the node found (address and contents), or `none` for `NULL`. -/
def find_room_by_name (s : Server) (room_name : CStr) : Option (Ptr × Room) :=
  find_room_loop room_name s.rooms

/-! ## handle_client -/

/-- A call `join_room(user, room)` with pointer arguments; `none` when a pointer is invalid. -/
def call_join_room (s : Server) (user : Ptr) (room : Ptr) : Option (Server × List Delivery) :=
  match deref s.users user, deref s.rooms room with
  | some u, some r =>
    let res := join_room u r
    some (⟨s.users, store s.rooms room res.1, s.brk⟩, res.2)
  | _, _ => none

/-- A call `broadcast_room(room, message, sender)` with pointer arguments; `none` when a
pointer is `NULL` or invalid. -/
def call_broadcast_room (s : Server) (room : Option Ptr) (message : CStr) (sender : Ptr) :
    Option (List Delivery) :=
  match room with
  | none => none
  | some p =>
    match deref s.rooms p, deref s.users sender with
    | some r, some u => some (broadcast_room r message u)
    | _, _ => none

/-- A call `leave_room(user, room)` with pointer arguments. -/
def call_leave_room (s : Server) (user : Ptr) (room : Ptr) : Option Server :=
  match deref s.users user, deref s.rooms room with
  | some u, some r => some ⟨s.users, store s.rooms room (leave_room u r), s.brk⟩
  | _, _ => none

/-- The locals of one `handle_client` thread that live across the receive loop. -/
structure Session where
  sock : Int
  current_user : Ptr
  lobby : Option Ptr
  deriving DecidableEq, Repr

/-- The text `GUEST_<sock>` built in `guest_name`. -/
def guest_name (sock : Int) : CStr :=
  snprintf MAX_USERNAME ("GUEST_".toList ++ fmt_d sock)

/-- The start of `handle_client`, up to the receive loop: register as a guest, look up
`Lobby` and join it when found. -/
def handle_client_setup (s : Server) (sock : Int) : Option (Server × Session × List Delivery) :=
  let added := add_user s sock (guest_name sock)
  let s1 := added.1
  let current_user := added.2
  match find_room_by_name s1 "Lobby".toList with
  | some lobby =>
    match call_join_room s1 current_user lobby.1 with
    | some res => some (res.1, ⟨sock, current_user, some lobby.1⟩, res.2)
    | none => none
  | none => some (s1, ⟨sock, current_user, none⟩, [])

/-- One pass of the receive loop body, for a received `buffer` that `sscanf` split into
`command` and `arg`. The flag is `false` when the loop is left (`exit`, `logout`). -/
def handle_client_command (s : Server) (c : Session) (command arg buffer : CStr) :
    Option (Server × List Delivery × Bool) :=
  if command = "login".toList then
    match deref s.users c.current_user with
    | some u =>
      let s1 : Server :=
        ⟨store s.users c.current_user ⟨u.socket, strncpy arg (MAX_USERNAME - 1)⟩, s.rooms, s.brk⟩
      let msg := snprintf BUFFER_SIZE ("User ".toList ++ arg ++ " logged in\n".toList)
      match call_broadcast_room s1 c.lobby msg c.current_user with
      | some out => some (s1, out, true)
      | none => none
    | none => none
  else if command = "create".toList then
    let created := create_room s arg
    match call_join_room created.1 c.current_user created.2 with
    | some res => some (res.1, res.2, true)
    | none => none
  else if command = "join".toList then
    match find_room_by_name s arg with
    | some room =>
      match call_join_room s c.current_user room.1 with
      | some res => some (res.1, res.2, true)
      | none => none
    | none => some (s, [], true)
  else if command = "leave".toList then
    match find_room_by_name s arg with
    | some room =>
      match call_leave_room s c.current_user room.1 with
      | some s1 => some (s1, [], true)
      | none => none
    | none => some (s, [], true)
  else if command = "exit".toList ∨ command = "logout".toList then
    some (s, [], false)
  else
    match call_broadcast_room s c.lobby buffer c.current_user with
    | some out => some (s, out, true)
    | none => none

/-- The cleanup at the end of `handle_client`: `remove_user(sock)` (then `close(sock)`). -/
def handle_client_cleanup (s : Server) (c : Session) : Server :=
  remove_user s c.sock

/-! ## The server as a whole -/

/-- What happens on a connection: it is accepted, a buffer is received on it (already split
by `sscanf`), or `recv` returns no data. -/
inductive Event where
  | connect (sock : Int)
  | recv (sock : Int) (command arg buffer : CStr)
  | hangup (sock : Int)
  deriving DecidableEq, Repr

/-- The shared state and the running `handle_client` threads. -/
structure World where
  server : Server
  threads : List Session
  deriving DecidableEq, Repr

/-- The state when `main` enters the accept loop: `create_room("Lobby")` has run. -/
def main_init : World :=
  ⟨(create_room ⟨[], [], 0⟩ "Lobby".toList).1, []⟩

/-- The thread serving socket `sock`. -/
def thread_of (sock : Int) : List Session → Option Session
  | [] => none
  | c :: rest => if c.sock = sock then some c else thread_of sock rest

/-- The threads other than the one serving `sock`. -/
def drop_thread (sock : Int) (threads : List Session) : List Session :=
  threads.filter (fun c => c.sock ≠ sock)

/-- One event, handled atomically; `none` when the thread dereferences an invalid pointer.
An event for a socket no thread serves changes nothing. -/
def step (w : World) : Event → Option (World × List Delivery)
  | Event.connect sock =>
    match handle_client_setup w.server sock with
    | some res => some (⟨res.1, res.2.1 :: w.threads⟩, res.2.2)
    | none => none
  | Event.recv sock command arg buffer =>
    match thread_of sock w.threads with
    | some c =>
      match handle_client_command w.server c command arg buffer with
      | some res =>
        if res.2.2 then some (⟨res.1, w.threads⟩, res.2.1)
        else some (⟨handle_client_cleanup res.1 c, drop_thread sock w.threads⟩, res.2.1)
      | none => none
    | none => some (w, [])
  | Event.hangup sock =>
    match thread_of sock w.threads with
    | some c => some (⟨handle_client_cleanup w.server c, drop_thread sock w.threads⟩, [])
    | none => some (w, [])

/-- A sequence of events: the final state and all deliveries, in order. -/
def run (w : World) : List Event → Option (World × List Delivery)
  | [] => some (w, [])
  | e :: rest =>
    match step w e with
    | some r1 =>
      match run r1.1 rest with
      | some r2 => some (r2.1, r1.2 ++ r2.2)
      | none => none
    | none => none

/-- The deliveries of the last event of a sequence. -/
def last_output (w : World) (events : List Event) (e : Event) : Option (List Delivery) :=
  match run w events with
  | some r => (step r.1 e).map (fun res => res.2)
  | none => none

/-! ## Example values -/

/-- The guest on socket 4. -/
def guest4 : User := ⟨4, "GUEST_4".toList⟩

/-- The guest on socket 5. -/
def guest5 : User := ⟨5, "GUEST_5".toList⟩

/-- The guest on socket 6. -/
def guest6 : User := ⟨6, "GUEST_6".toList⟩

/-- Sessions registered one after the other by `add_user`, the first of the list first. -/
def register_all (s : Server) : List (Int × CStr) → Server
  | [] => s
  | r :: rest => register_all (add_user s r.1 r.2).1 rest

/-- The room nodes are distinct allocations: no two have the same address, and every address
is below the next address `malloc` returns. -/
def rooms_ok (s : Server) : Prop :=
  (s.rooms.map Prod.fst).Nodup ∧ ∀ node ∈ s.rooms, node.1 < s.brk

instance (s : Server) : Decidable (rooms_ok s) :=
  inferInstanceAs (Decidable (_ ∧ _))

/-! ## Shared lemmas -/

theorem snprintf_of_fits (size : Nat) (formatted : CStr) (h : formatted.length ≤ size - 1) :
    snprintf size formatted = formatted := by
  unfold snprintf
  exact List.take_of_length_le h

theorem toDigits_length_le (n : Nat) (h : n < 10 ^ 10) : (Nat.toDigits 10 n).length ≤ 10 := by
  unfold Nat.toDigits
  exact Nat.toDigitsCore_length 10 (by decide) (n + 1) n 10 h (by decide)

theorem fmt_d_length_le (n : Int) (hlo : -2147483648 ≤ n) (hhi : n ≤ 2147483647) :
    (fmt_d n).length ≤ 11 := by
  cases n with
  | ofNat k =>
    have hk : k < 10 ^ 10 := by
      have : (k : Int) ≤ 2147483647 := hhi
      omega
    have := toDigits_length_le k hk
    simp only [fmt_d]
    omega
  | negSucc k =>
    have hk : k + 1 < 10 ^ 10 := by
      have h1 : -2147483648 ≤ Int.negSucc k := hlo
      rw [Int.negSucc_eq] at h1
      omega
    have := toDigits_length_le (k + 1) hk
    simp only [fmt_d, List.length_cons]
    omega

theorem guest_name_eq (sock : Int) (hlo : -2147483648 ≤ sock) (hhi : sock ≤ 2147483647) :
    guest_name sock = "GUEST_".toList ++ fmt_d sock := by
  unfold guest_name
  apply snprintf_of_fits
  have := fmt_d_length_le sock hlo hhi
  simp only [List.length_append, MAX_USERNAME]
  have h6 : "GUEST_".toList.length = 6 := by decide
  omega

theorem mem_broadcast_loop (room_name message : CStr) (sender : User) (members : List User)
    (d : Delivery) :
    d ∈ broadcast_loop room_name message sender members ↔
      (d.dest ≠ sender.socket ∧ (∃ m ∈ members, m.socket = d.dest) ∧
        d.text = snprintf BUFFER_SIZE
          ("[".toList ++ room_name ++ "] ".toList ++ sender.username ++ ": ".toList
            ++ message ++ "\n".toList)) := by
  induction members with
  | nil => simp [broadcast_loop]
  | cons m rest ih =>
    unfold broadcast_loop
    by_cases hm : m.socket = sender.socket
    · simp only [hm, ne_eq, not_true_eq_false, if_false, ih, List.mem_cons, exists_eq_or_imp]
      constructor
      · rintro ⟨h1, h2, h3⟩
        exact ⟨h1, Or.inr h2, h3⟩
      · rintro ⟨h1, h2 | h2, h3⟩
        · exact absurd h2.symm h1
        · exact ⟨h1, h2, h3⟩
    · simp only [ne_eq, hm, not_false_eq_true, if_true, List.mem_cons, ih, exists_eq_or_imp]
      constructor
      · rintro (h | ⟨h1, h2, h3⟩)
        · subst h
          exact ⟨hm, Or.inl rfl, rfl⟩
        · exact ⟨h1, Or.inr h2, h3⟩
      · rintro ⟨h1, h2 | h2, h3⟩
        · left
          cases d
          simp_all
        · exact Or.inr ⟨h1, h2, h3⟩

theorem count_broadcast_loop (room_name message : CStr) (sender : User) (members : List User)
    (dest : Int) (h : dest ≠ sender.socket) :
    ((broadcast_loop room_name message sender members).map Delivery.dest).count dest
      = (members.map User.socket).count dest := by
  induction members with
  | nil => simp [broadcast_loop]
  | cons m rest ih =>
    unfold broadcast_loop
    by_cases hm : m.socket = sender.socket
    ·       simp [hm, ih, List.count_cons, Ne.symm h]
    · simp [hm, ih, List.count_cons]

theorem strncpy_guest_name (sock : Int) :
    strncpy (guest_name sock) (MAX_USERNAME - 1) = guest_name sock := by
  simp [strncpy, guest_name, snprintf, MAX_USERNAME, List.take_take]

theorem strncpy_lobby :
    strncpy ['L', 'o', 'b', 'b', 'y'] (MAX_USERNAME - 1) = ['L', 'o', 'b', 'b', 'y'] := by
  decide

theorem guest_name_length_le (sock : Int) : (guest_name sock).length ≤ 31 := by
  simp [guest_name, snprintf, MAX_USERNAME]

theorem two_connected (id1 id2 : Int) (hne : id1 ≠ id2) :
    run main_init [Event.connect id1, Event.connect id2] = some
      (⟨⟨[(2, ⟨id2, guest_name id2⟩), (1, ⟨id1, guest_name id1⟩)],
          [(0, ⟨"Lobby".toList, [⟨id2, guest_name id2⟩, ⟨id1, guest_name id1⟩]⟩)], 3⟩,
        [⟨id2, 2, some 0⟩, ⟨id1, 1, some 0⟩]⟩,
       [⟨id1, snprintf BUFFER_SIZE ("[Lobby] ".toList ++ guest_name id2 ++ ": ".toList
          ++ snprintf BUFFER_SIZE
              ("User ".toList ++ guest_name id2 ++ " joined room Lobby\n".toList)
          ++ "\n".toList)⟩]) := by
  simp [run, step, main_init, handle_client_setup, add_user, create_room, find_room_by_name,
    find_room_loop, call_join_room, deref, store, join_room, strncpy_lobby, strncpy_guest_name,
    broadcast_room, broadcast_loop, hne, Ne.symm hne]

theorem scenario_A (id1 id2 : Int) (arg : CStr) (hne : id1 ≠ id2) :
    last_output main_init [Event.connect id1, Event.connect id2]
        (Event.recv id1 "hello".toList arg "hello".toList)
      = some [⟨id2, "[Lobby] ".toList ++ guest_name id1 ++ ": hello\n".toList⟩] := by
  have hfit : snprintf BUFFER_SIZE
      ("[Lobby] ".toList ++ guest_name id1 ++ ": hello\n".toList)
      = "[Lobby] ".toList ++ guest_name id1 ++ ": hello\n".toList := by
    apply snprintf_of_fits
    have := guest_name_length_le id1
    simp only [List.length_append, BUFFER_SIZE]
    have h1 : "[Lobby] ".toList.length = 8 := by decide
    have h2 : ": hello\n".toList.length = 8 := by decide
    omega
  simp at hfit
  simp [last_output, two_connected id1 id2 hne, step, thread_of, hne, Ne.symm hne,
    handle_client_command, call_broadcast_room, deref, broadcast_room, broadcast_loop, hfit]

/-! ## Broadcast -/

/-- C1: broadcast_room never delivers to the sender. For every room, message and sender, no
delivery that broadcast_room emits has the sender's socket as its destination, whatever the
member list holds. -/
theorem broadcast_room_never_to_sender (room : Room) (message : CStr) (sender : User)
    (d : Delivery) (h : d ∈ broadcast_room room message sender) :
    d.dest ≠ sender.socket :=
  ((mem_broadcast_loop room.name message sender room.users d).mp h).1

/-- C1 at a Lobby that lists the sender twice: the delivery made goes to socket 5. -/
theorem broadcast_room_never_to_sender_witness :
    (⟨5, "[Lobby] GUEST_4: hi\n".toList⟩ : Delivery)
        ∈ broadcast_room ⟨"Lobby".toList, [guest4, guest5, guest4]⟩ "hi".toList guest4
      ∧ (5 : Int) ≠ guest4.socket :=
  ⟨by decide,
   broadcast_room_never_to_sender ⟨"Lobby".toList, [guest4, guest5, guest4]⟩ "hi".toList guest4
     ⟨5, "[Lobby] GUEST_4: hi\n".toList⟩ (by decide)⟩

/-- C2 fails as stated: after sockets 4 and 5 connect and 5 sends `join Lobby`, the member
list of Lobby holds socket 5 twice, and a broadcast from 4 is delivered to socket 5 twice. -/
theorem broadcast_exactly_once_counterexample :
    (run main_init [Event.connect 4, Event.connect 5,
        Event.recv 5 "join".toList "Lobby".toList "join Lobby".toList]).map
          (fun r => r.1.server.rooms)
        = some [(0, ⟨"Lobby".toList, [guest5, guest5, guest4]⟩)]
      ∧ (broadcast_room ⟨"Lobby".toList, [guest5, guest5, guest4]⟩ "hi".toList guest4).map
          Delivery.dest = [5, 5] := by
  decide

/-- C2, amended: broadcast_room delivers to every socket other than the sender's once per
entry that socket has in the member list, so exactly once to a member listed once and
twice to a member that joined twice. -/
theorem broadcast_room_once_per_entry (room : Room) (message : CStr) (sender : User)
    (dest : Int) (h : dest ≠ sender.socket) :
    ((broadcast_room room message sender).map Delivery.dest).count dest
      = (room.users.map User.socket).count dest :=
  count_broadcast_loop room.name message sender room.users dest h

/-- C2, amended, at a Lobby listing 5 once and at one listing it twice. -/
theorem broadcast_room_once_per_entry_witness :
    (5 : Int) ≠ guest4.socket
      ∧ ((broadcast_room ⟨"Lobby".toList, [guest5, guest4]⟩ "hi".toList guest4).map
          Delivery.dest).count 5 = 1
      ∧ ((broadcast_room ⟨"Lobby".toList, [guest5, guest5, guest4]⟩ "hi".toList guest4).map
          Delivery.dest).count 5 = 2 :=
  ⟨by decide,
   (broadcast_room_once_per_entry ⟨"Lobby".toList, [guest5, guest4]⟩ "hi".toList guest4 5
      (by decide)).trans (by decide),
   (broadcast_room_once_per_entry ⟨"Lobby".toList, [guest5, guest5, guest4]⟩ "hi".toList
      guest4 5 (by decide)).trans (by decide)⟩

/-- C3 fails as stated: a message of 1010 bytes sent by GUEST_4 in Lobby reaches socket 5
cut to 1023 bytes, which is neither the text `[Lobby] GUEST_4: <message>` nor that text
followed by a newline. -/
theorem broadcast_room_text_counterexample :
    ∃ d ∈ broadcast_room ⟨"Lobby".toList, [guest5]⟩ (List.replicate 1010 'a') guest4,
      d.text.length = 1023
        ∧ d.text ≠ "[Lobby] GUEST_4: ".toList ++ List.replicate 1010 'a'
        ∧ d.text ≠ "[Lobby] GUEST_4: ".toList ++ List.replicate 1010 'a' ++ "\n".toList := by
  have hmsg : (List.replicate 1010 'a').length = 1010 := List.length_replicate 1010 'a'
  generalize List.replicate 1010 'a' = msg at hmsg
  refine ⟨⟨5, snprintf BUFFER_SIZE ("[".toList ++ "Lobby".toList ++ "] ".toList
    ++ guest4.username ++ ": ".toList ++ msg ++ "\n".toList)⟩, ?_, ?_⟩
  · rw [broadcast_room, mem_broadcast_loop]
    exact ⟨by simp [guest4], ⟨guest5, by simp, rfl⟩, rfl⟩
  · have hlen : (snprintf BUFFER_SIZE ("[".toList ++ "Lobby".toList ++ "] ".toList
        ++ guest4.username ++ ": ".toList ++ msg ++ "\n".toList)).length = 1023 := by
      simp [snprintf, BUFFER_SIZE, guest4, hmsg]
    refine ⟨hlen, ?_, ?_⟩
    · intro h
      have h2 := congrArg List.length h
      rw [hlen] at h2
      simp [hmsg] at h2
    · intro h
      have h2 := congrArg List.length h
      rw [hlen] at h2
      simp [hmsg] at h2

/-- C3, amended: every line broadcast_room delivers is the text
`[<room>] <senderName>: <message>` followed by a newline and cut to its first 1023 bytes.
When sessions id1 and id2 have connected and id1 sends the plain text hello, the only
delivery goes to id2 and is `[Lobby] GUEST_<id1>: hello` followed by a newline. -/
theorem broadcast_room_text (room : Room) (message : CStr) (sender : User) (d : Delivery)
    (id1 id2 : Int) (arg : CStr)
    (hd : d ∈ broadcast_room room message sender) (hne : id1 ≠ id2)
    (hlo : -2147483648 ≤ id1) (hhi : id1 ≤ 2147483647) :
    d.text = ("[".toList ++ room.name ++ "] ".toList ++ sender.username ++ ": ".toList
        ++ message ++ "\n".toList).take 1023
      ∧ last_output main_init [Event.connect id1, Event.connect id2]
          (Event.recv id1 "hello".toList arg "hello".toList)
        = some [⟨id2, "[Lobby] GUEST_".toList ++ fmt_d id1 ++ ": hello\n".toList⟩] := by
  constructor
  · exact ((mem_broadcast_loop room.name message sender room.users d).mp hd).2.2
  · rw [scenario_A id1 id2 arg hne, guest_name_eq id1 hlo hhi]
    simp

/-- C3, amended, for GUEST_4 saying hi to socket 5 and for the sessions 4 and 5. -/
theorem broadcast_room_text_witness :
    (⟨5, "[Lobby] GUEST_4: hi\n".toList⟩ : Delivery)
        ∈ broadcast_room ⟨"Lobby".toList, [guest5, guest4]⟩ "hi".toList guest4
      ∧ last_output main_init [Event.connect 4, Event.connect 5]
          (Event.recv 4 "hello".toList [] "hello".toList)
        = some [⟨5, "[Lobby] GUEST_4: hello\n".toList⟩] :=
  ⟨by decide,
   ((broadcast_room_text ⟨"Lobby".toList, [guest5, guest4]⟩ "hi".toList guest4
      ⟨5, "[Lobby] GUEST_4: hi\n".toList⟩ 4 5 [] (by decide) (by decide) (by decide)
      (by decide)).2).trans (by decide)⟩

/-! ## Rooms -/

/-- C4 fails as stated: two calls of create_room with the name music return two different
rooms and leave two rooms of that name; through the `create music` command sent by socket 4
and then by socket 5, the second room holds socket 5 alone, not the members of the first. -/
theorem create_room_idempotent_counterexample :
    (create_room ⟨[], [], 0⟩ "music".toList).2
        ≠ (create_room (create_room ⟨[], [], 0⟩ "music".toList).1 "music".toList).2
      ∧ (create_room (create_room ⟨[], [], 0⟩ "music".toList).1 "music".toList).1.rooms
        = [(1, ⟨"music".toList, []⟩), (0, ⟨"music".toList, []⟩)]
      ∧ (run main_init [Event.connect 4, Event.connect 5,
          Event.recv 4 "create".toList "music".toList "create music".toList,
          Event.recv 5 "create".toList "music".toList "create music".toList]).map
            (fun r => r.1.server.rooms)
        = some [(4, ⟨"music".toList, [guest5]⟩), (3, ⟨"music".toList, [guest4]⟩),
            (0, ⟨"Lobby".toList, [guest5, guest4]⟩)] := by
  decide

/-- C4, amended: create_room never looks the name up. For every name shorter than 31 bytes,
each call links a new room of that name, with no members, in front of the rooms already
there: two calls with one name return two different rooms, the second call returns a new
room without members and not the room of the first call, and the registry holds two more
rooms of that name than before. -/
theorem create_room_always_new (s : Server) (name : CStr) (hname : name.length < 31) :
    (create_room s name).2 ≠ (create_room (create_room s name).1 name).2
      ∧ (create_room (create_room s name).1 name).1.rooms
        = ((create_room (create_room s name).1 name).2, ⟨name, []⟩)
            :: ((create_room s name).2, ⟨name, []⟩) :: s.rooms
      ∧ deref (create_room (create_room s name).1 name).1.rooms
          (create_room (create_room s name).1 name).2 = some ⟨name, []⟩
      ∧ ((create_room (create_room s name).1 name).1.rooms.filter
            (fun node => node.2.name = name)).length
        = (s.rooms.filter (fun node => node.2.name = name)).length + 2 := by
  have hfit : strncpy name (MAX_USERNAME - 1) = name := by
    unfold strncpy
    apply List.take_of_length_le
    simp only [MAX_USERNAME]
    omega
  simp [create_room, hfit, deref]

/-- C4, amended, for the name music in a registry that already holds a music room with a
member. -/
theorem create_room_always_new_witness :
    "music".toList.length < 31
      ∧ (create_room (create_room ⟨[(2, guest5), (1, guest4)],
            [(3, ⟨"music".toList, [guest5]⟩), (0, ⟨"Lobby".toList, [guest5, guest4]⟩)], 4⟩
            "music".toList).1 "music".toList).1.rooms
        = [(5, ⟨"music".toList, []⟩), (4, ⟨"music".toList, []⟩),
            (3, ⟨"music".toList, [guest5]⟩), (0, ⟨"Lobby".toList, [guest5, guest4]⟩)] :=
  ⟨by decide,
   ((create_room_always_new ⟨[(2, guest5), (1, guest4)],
      [(3, ⟨"music".toList, [guest5]⟩), (0, ⟨"Lobby".toList, [guest5, guest4]⟩)], 4⟩
      "music".toList (by decide)).2.1).trans (by decide)⟩

theorem remove_user_loop_of_absent (sock : Int) (l : List (Ptr × User))
    (h : ∀ n ∈ l, n.2.socket ≠ sock) : remove_user_loop sock l = l := by
  induction l with
  | nil => rfl
  | cons n rest ih =>
    have hn : n.2.socket ≠ sock := h n (List.mem_cons_self n rest)
    have hrest : ∀ m ∈ rest, m.2.socket ≠ sock := fun m hm => h m (List.mem_cons_of_mem n hm)
    simp [remove_user_loop, hn, ih hrest]

theorem remove_user_loop_eq_filter (sock : Int) (l : List (Ptr × User))
    (h : (l.map (fun n => n.2.socket)).Nodup) :
    remove_user_loop sock l = l.filter (fun n => n.2.socket ≠ sock) := by
  induction l with
  | nil => rfl
  | cons n rest ih =>
    rw [List.map_cons, List.nodup_cons] at h
    by_cases hn : n.2.socket = sock
    · have habs : ∀ m ∈ rest, m.2.socket ≠ sock := by
        intro m hm e
        exact h.1 (List.mem_map.mpr ⟨m, hm, by rw [e, hn]⟩)
      have hfil : rest.filter (fun n => n.2.socket ≠ sock) = rest := by
        rw [List.filter_eq_self]
        intro m hm
        simpa using habs m hm
      have hhead : remove_user_loop sock (n :: rest) = rest := by
        simp [remove_user_loop, hn]
      have hcons : (n :: rest).filter (fun n => n.2.socket ≠ sock)
          = rest.filter (fun n => n.2.socket ≠ sock) := by
        rw [List.filter_cons]
        simp [hn]
      rw [hhead, hcons, hfil]
    · simp [remove_user_loop, hn, ih h.2]

theorem find_user_loop_some (name : CStr) (l : List (Ptr × User)) (n : Ptr × User)
    (h : find_user_loop name l = some n) : n ∈ l ∧ n.2.username = name := by
  induction l with
  | nil => simp [find_user_loop] at h
  | cons m rest ih =>
    unfold find_user_loop at h
    by_cases hm : m.2.username = name
    · simp only [hm, if_true, Option.some.injEq] at h
      subst h
      exact ⟨List.mem_cons_self _ _, hm⟩
    · simp only [hm, if_false] at h
      exact ⟨List.mem_cons_of_mem _ (ih h).1, (ih h).2⟩

theorem find_user_loop_none (name : CStr) (l : List (Ptr × User)) :
    find_user_loop name l = none ↔ ∀ n ∈ l, n.2.username ≠ name := by
  induction l with
  | nil => simp [find_user_loop]
  | cons m rest ih =>
    unfold find_user_loop
    by_cases hm : m.2.username = name
    · simp [hm]
    · simp [hm, ih]

/-- C6 fails as stated: sockets 4 and 5 connect and 4 disconnects. Lobby still lists
socket 4, and the next message of socket 5 is sent to socket 4. -/
theorem teardown_rooms_counterexample :
    (run main_init [Event.connect 4, Event.connect 5, Event.hangup 4]).map (fun r => r.1)
        = some ⟨⟨[(2, guest5)], [(0, ⟨"Lobby".toList, [guest5, guest4]⟩)], 3⟩,
            [⟨5, 2, some 0⟩]⟩
      ∧ last_output main_init [Event.connect 4, Event.connect 5, Event.hangup 4]
          (Event.recv 5 "hi".toList [] "hi".toList)
        = some [⟨4, "[Lobby] GUEST_5: hi\n".toList⟩] := by
  decide

/-- C6, amended: the teardown of a session (remove_user, then close) leaves every room
exactly as it was. A room that listed the session's socket still lists it, and a later
broadcast_room to that room from a sender on another socket still delivers to it. -/
theorem teardown_keeps_rooms (s : Server) (c : Session) (p : Ptr) (room : Room)
    (message : CStr) (sender : User)
    (hroom : (p, room) ∈ s.rooms) (hmem : c.sock ∈ room.users.map User.socket)
    (hsender : sender.socket ≠ c.sock) :
    (handle_client_cleanup s c).rooms = s.rooms
      ∧ (p, room) ∈ (handle_client_cleanup s c).rooms
      ∧ c.sock ∈ (broadcast_room room message sender).map Delivery.dest := by
  refine ⟨rfl, hroom, ?_⟩
  have hcount : ((broadcast_room room message sender).map Delivery.dest).count c.sock
      = (room.users.map User.socket).count c.sock :=
    count_broadcast_loop room.name message sender room.users c.sock (Ne.symm hsender)
  have hpos : 0 < (room.users.map User.socket).count c.sock := List.count_pos_iff.mpr hmem
  rw [← hcount] at hpos
  exact List.count_pos_iff.mp hpos

/-- C6, amended, for the session on socket 4 leaving a Lobby that socket 5 then writes to. -/
theorem teardown_keeps_rooms_witness :
    ((0, ⟨"Lobby".toList, [guest5, guest4]⟩) : Ptr × Room)
        ∈ (⟨[(2, guest5), (1, guest4)], [(0, ⟨"Lobby".toList, [guest5, guest4]⟩)], 3⟩ :
            Server).rooms
      ∧ (4 : Int) ∈ ([guest5, guest4] : List User).map User.socket
      ∧ guest5.socket ≠ (4 : Int)
      ∧ (4 : Int) ∈ (broadcast_room ⟨"Lobby".toList, [guest5, guest4]⟩ "hi".toList guest5).map
          Delivery.dest :=
  ⟨by decide, by decide, by decide,
   (teardown_keeps_rooms ⟨[(2, guest5), (1, guest4)],
      [(0, ⟨"Lobby".toList, [guest5, guest4]⟩)], 3⟩ ⟨4, 1, some 0⟩ 0
      ⟨"Lobby".toList, [guest5, guest4]⟩ "hi".toList guest5
      (by decide) (by decide) (by decide)).2.2⟩

/-- C7: when no two registered sessions share a socket, after remove_user the registry holds
no session on that socket, every session on another socket is still there, and
find_user_by_name returns no session on that socket. -/
theorem remove_user_complete (s : Server) (sock : Int)
    (h : (s.users.map (fun n => n.2.socket)).Nodup) :
    (∀ n ∈ (remove_user s sock).users, n.2.socket ≠ sock)
      ∧ (∀ n ∈ s.users, n.2.socket ≠ sock → n ∈ (remove_user s sock).users)
      ∧ (∀ name n, find_user_by_name (remove_user s sock) name = some n → n.2.socket ≠ sock) := by
  have hfil : (remove_user s sock).users = s.users.filter (fun n => n.2.socket ≠ sock) :=
    remove_user_loop_eq_filter sock s.users h
  have ha : ∀ n ∈ (remove_user s sock).users, n.2.socket ≠ sock := by
    intro n hn
    rw [hfil, List.mem_filter] at hn
    simpa using hn.2
  refine ⟨ha, ?_, ?_⟩
  · intro n hn hne
    rw [hfil, List.mem_filter]
    exact ⟨hn, by simpa using hne⟩
  · intro name n hfind
    exact ha n (find_user_loop_some name _ n hfind).1

/-- C7 for the registry of sockets 5 and 4, from which 4 is removed. -/
theorem remove_user_complete_witness :
    (([(2, guest5), (1, guest4)] : List (Ptr × User)).map (fun n => n.2.socket)).Nodup
      ∧ (remove_user ⟨[(2, guest5), (1, guest4)], [], 3⟩ 4).users = [(2, guest5)]
      ∧ (∀ n ∈ (remove_user ⟨[(2, guest5), (1, guest4)], [], 3⟩ 4).users, n.2.socket ≠ 4) :=
  ⟨by decide, by decide,
   (remove_user_complete ⟨[(2, guest5), (1, guest4)], [], 3⟩ 4 (by decide)).1⟩

/-! ## Plain messages, lookup by name, join notice -/

/-- C8 on the code: sockets 4, 5 and 6 connect, 4 sends `create music`, 5 sends
`join music`, so music lists 5 and 4 and Lobby lists 6, 5 and 4. The plain line `hi` of
socket 4 then goes out as a Lobby line, to socket 6, which is in Lobby only, and to 5. -/
theorem plain_message_sent_to_lobby :
    (run main_init [Event.connect 4, Event.connect 5, Event.connect 6,
        Event.recv 4 "create".toList "music".toList "create music".toList,
        Event.recv 5 "join".toList "music".toList "join music".toList]).map
          (fun r => r.1.server.rooms)
        = some [(4, ⟨"music".toList, [guest5, guest4]⟩),
            (0, ⟨"Lobby".toList, [guest6, guest5, guest4]⟩)]
      ∧ last_output main_init [Event.connect 4, Event.connect 5, Event.connect 6,
          Event.recv 4 "create".toList "music".toList "create music".toList,
          Event.recv 5 "join".toList "music".toList "join music".toList]
          (Event.recv 4 "hi".toList [] "hi".toList)
        = some [⟨6, "[Lobby] GUEST_4: hi\n".toList⟩, ⟨5, "[Lobby] GUEST_4: hi\n".toList⟩] := by
  decide

theorem register_all_users_find (name : CStr) (later : List (Int × CStr)) (s : Server)
    (h : ∀ r ∈ later, strncpy r.2 (MAX_USERNAME - 1) ≠ name) :
    find_user_loop name (register_all s later).users = find_user_loop name s.users := by
  induction later generalizing s with
  | nil => rfl
  | cons r rest ih =>
    have hr : strncpy r.2 (MAX_USERNAME - 1) ≠ name := h r (List.mem_cons_self r rest)
    have hrest : ∀ q ∈ rest, strncpy q.2 (MAX_USERNAME - 1) ≠ name :=
      fun q hq => h q (List.mem_cons_of_mem r hq)
    rw [register_all, ih _ hrest]
    simp [add_user, find_user_loop, hr]

theorem register_all_append (s : Server) (a b : List (Int × CStr)) :
    register_all s (a ++ b) = register_all (register_all s a) b := by
  induction a generalizing s with
  | nil => rfl
  | cons r rest ih => simp [register_all, ih]

theorem register_all_brk (s : Server) (a : List (Int × CStr)) :
    (register_all s a).brk = s.brk + a.length := by
  induction a generalizing s with
  | nil => rfl
  | cons r rest ih =>
    rw [register_all, ih]
    simp [add_user]
    omega

/-- C9 fails as stated: after add_user for socket 4 and then for socket 5, both under the name
alice, find_user_by_name returns the session of socket 5, which was registered last. -/
theorem find_user_by_name_earliest_counterexample :
    (register_all ⟨[], [], 0⟩ [(4, "alice".toList), (5, "alice".toList)]).users
        = [(1, ⟨5, "alice".toList⟩), (0, ⟨4, "alice".toList⟩)]
      ∧ find_user_by_name
          (register_all ⟨[], [], 0⟩ [(4, "alice".toList), (5, "alice".toList)]) "alice".toList
        = some (1, ⟨5, "alice".toList⟩)
      ∧ find_user_by_name
          (register_all ⟨[], [], 0⟩ [(4, "alice".toList), (5, "alice".toList)]) "alice".toList
        ≠ some (0, ⟨4, "alice".toList⟩) := by
  decide

/-- C9, amended: find_user_by_name returns the first match from the head of the registry,
and add_user links every new session at the head, so among the registered sessions that carry
a name it returns the one registered last. It returns no session exactly when no registered
session carries the name. -/
theorem find_user_by_name_latest (s : Server) (earlier later : List (Int × CStr))
    (sock : Int) (username name : CStr)
    (hname : strncpy username (MAX_USERNAME - 1) = name)
    (hlater : ∀ r ∈ later, strncpy r.2 (MAX_USERNAME - 1) ≠ name) :
    find_user_by_name (register_all s (earlier ++ (sock, username) :: later)) name
        = some (s.brk + earlier.length, ⟨sock, name⟩)
      ∧ ∀ (regs : List (Int × CStr)) (other : CStr),
          find_user_by_name (register_all s regs) other = none
            ↔ ∀ n ∈ (register_all s regs).users, n.2.username ≠ other := by
  constructor
  · rw [find_user_by_name, register_all_append, register_all,
      register_all_users_find name later _ hlater]
    simp [add_user, find_user_loop, hname, register_all_brk]
  · intro regs other
    exact find_user_loop_none other _

/-- C9, amended, for alice on socket 4, then alice on socket 5, then bob on socket 6. -/
theorem find_user_by_name_latest_witness :
    strncpy "alice".toList (MAX_USERNAME - 1) = "alice".toList
      ∧ (∀ r ∈ [((6 : Int), "bob".toList)], strncpy r.2 (MAX_USERNAME - 1) ≠ "alice".toList)
      ∧ find_user_by_name
          (register_all ⟨[], [], 0⟩
            ([(4, "alice".toList)] ++ (5, "alice".toList) :: [(6, "bob".toList)]))
          "alice".toList
        = some (0 + [((4 : Int), "alice".toList)].length, ⟨5, "alice".toList⟩) :=
  ⟨by decide, by decide,
   (find_user_by_name_latest ⟨[], [], 0⟩ [(4, "alice".toList)] [(6, "bob".toList)] 5
      "alice".toList "alice".toList (by decide) (by decide)).1⟩

theorem broadcast_loop_eq_filter_map (room_name message : CStr) (sender : User)
    (members : List User) :
    broadcast_loop room_name message sender members
      = (members.filter (fun m => m.socket ≠ sender.socket)).map
          (fun m => ⟨m.socket, snprintf BUFFER_SIZE
            ("[".toList ++ room_name ++ "] ".toList ++ sender.username ++ ": ".toList
              ++ message ++ "\n".toList)⟩) := by
  induction members with
  | nil => rfl
  | cons m rest ih =>
    unfold broadcast_loop
    by_cases hm : m.socket = sender.socket
    · simp [hm, ih]
    · simp [hm, ih]

/-- C10 fails as stated: when GUEST_5 joins a Lobby that lists socket 4, what socket 4
receives is the broadcast line `[Lobby] GUEST_5: User GUEST_5 joined room Lobby` and an
empty line, not the line `User GUEST_5 joined room Lobby`. -/
theorem join_notice_counterexample :
    (join_room guest5 ⟨"Lobby".toList, [guest4]⟩).2
        = [⟨4, "[Lobby] GUEST_5: User GUEST_5 joined room Lobby\n\n".toList⟩]
      ∧ ∀ d ∈ (join_room guest5 ⟨"Lobby".toList, [guest4]⟩).2,
          d.text ≠ "User GUEST_5 joined room Lobby".toList
            ∧ d.text ≠ "User GUEST_5 joined room Lobby\n".toList := by
  decide

/-- C10, amended: for a session named X and a room named R (at most 31 bytes each, as the
fields hold), join_room sends to every member entry of R on another socket, in list order,
the broadcast line `[R] X: User X joined room R` followed by two newlines, and sends
nothing to the socket of the joining session. -/
theorem join_room_notice (user : User) (room : Room)
    (hx : user.username.length ≤ 31) (hr : room.name.length ≤ 31) :
    (join_room user room).2
        = (room.users.filter (fun m => m.socket ≠ user.socket)).map
            (fun m => ⟨m.socket, "[".toList ++ room.name ++ "] ".toList ++ user.username
              ++ ": User ".toList ++ user.username ++ " joined room ".toList ++ room.name
              ++ "\n\n".toList⟩)
      ∧ ∀ d ∈ (join_room user room).2, d.dest ≠ user.socket := by
  have hmsg : snprintf BUFFER_SIZE ("User ".toList ++ user.username ++ " joined room ".toList
      ++ room.name ++ "\n".toList)
      = "User ".toList ++ user.username ++ " joined room ".toList ++ room.name
        ++ "\n".toList := by
    apply snprintf_of_fits
    simp [BUFFER_SIZE]
    omega
  have hline : snprintf BUFFER_SIZE ("[".toList ++ room.name ++ "] ".toList ++ user.username
      ++ ": ".toList ++ ("User ".toList ++ user.username ++ " joined room ".toList
        ++ room.name ++ "\n".toList) ++ "\n".toList)
      = "[".toList ++ room.name ++ "] ".toList ++ user.username
        ++ ": User ".toList ++ user.username ++ " joined room ".toList ++ room.name
        ++ "\n\n".toList := by
    rw [snprintf_of_fits]
    · simp
    · simp [BUFFER_SIZE]
      omega
  constructor
  · show broadcast_loop room.name _ user (user :: room.users) = _
    rw [hmsg, broadcast_loop_eq_filter_map, hline]
    simp
  · intro d hd
    exact ((mem_broadcast_loop room.name _ user (user :: room.users) d).mp hd).1

/-- C10, amended, for GUEST_5 joining a Lobby that lists sockets 6 and 4. -/
theorem join_room_notice_witness :
    guest5.username.length ≤ 31 ∧ "Lobby".toList.length ≤ 31
      ∧ (join_room guest5 ⟨"Lobby".toList, [guest6, guest4]⟩).2
        = [⟨6, "[Lobby] GUEST_5: User GUEST_5 joined room Lobby\n\n".toList⟩,
           ⟨4, "[Lobby] GUEST_5: User GUEST_5 joined room Lobby\n\n".toList⟩] :=
  ⟨by decide, by decide,
   ((join_room_notice guest5 ⟨"Lobby".toList, [guest6, guest4]⟩ (by decide) (by decide)).1).trans
     (by decide)⟩

/-! ## Pointers into the room list -/

theorem deref_of_mem {α : Type} (heap : List (Ptr × α)) (p : Ptr) (v : α)
    (hnodup : (heap.map Prod.fst).Nodup) (hmem : (p, v) ∈ heap) : deref heap p = some v := by
  induction heap with
  | nil => simp at hmem
  | cons node rest ih =>
    rw [List.map_cons, List.nodup_cons] at hnodup
    rcases List.mem_cons.mp hmem with h | h
    · subst h
      simp [deref]
    · have hne : node.1 ≠ p := by
        intro e
        exact hnodup.1 (List.mem_map.mpr ⟨(p, v), h, e.symm⟩)
      simp [deref, hne, ih hnodup.2 h]

theorem deref_store_same {α : Type} (heap : List (Ptr × α)) (p : Ptr) (r v : α)
    (h : deref heap p = some r) : deref (store heap p v) p = some v := by
  induction heap with
  | nil => simp [deref] at h
  | cons node rest ih =>
    by_cases hp : node.1 = p
    · simp [deref, store, hp]
    · simp only [deref, hp, if_false] at h
      have := ih h
      simp only [store] at this
      simp [deref, store, hp, this]

theorem deref_store_other {α : Type} (heap : List (Ptr × α)) (p q : Ptr) (v : α)
    (h : q ≠ p) : deref (store heap p v) q = deref heap q := by
  induction heap with
  | nil => rfl
  | cons node rest ih =>
    simp only [store] at ih
    by_cases hp : node.1 = p
    · have hq : ¬ (p = q) := fun e => h e.symm
      have hq2 : ¬ (node.1 = q) := fun e => h (e.symm.trans hp)
      simp [deref, store, hp, hq, hq2, ih]
    · simp [deref, store, hp, ih]

theorem store_of_absent {α : Type} (heap : List (Ptr × α)) (p : Ptr) (v : α)
    (h : p ∉ heap.map Prod.fst) : store heap p v = heap := by
  induction heap with
  | nil => rfl
  | cons node rest ih =>
    rw [List.map_cons, List.mem_cons, not_or] at h
    have hne : ¬ (node.1 = p) := fun e => h.1 e.symm
    simp only [store] at ih
    simp [store, hne, ih h.2]

theorem store_deref_self {α : Type} (heap : List (Ptr × α)) (p : Ptr) (r : α)
    (hnodup : (heap.map Prod.fst).Nodup) (h : deref heap p = some r) :
    store heap p r = heap := by
  induction heap with
  | nil => rfl
  | cons node rest ih =>
    rw [List.map_cons, List.nodup_cons] at hnodup
    by_cases hp : node.1 = p
    · simp only [deref, hp, if_true, Option.some.injEq] at h
      have habs : p ∉ rest.map Prod.fst := hp ▸ hnodup.1
      have hrest := store_of_absent rest p r habs
      simp only [store] at hrest
      simp only [store, List.map_cons, hp, if_true, hrest]
      rw [← h, ← hp]
    · simp only [deref, hp, if_false] at h
      have hrest := ih hnodup.2 h
      simp only [store] at hrest
      simp [store, hp, hrest]

theorem find_room_loop_some (name : CStr) (l : List (Ptr × Room)) (n : Ptr × Room)
    (h : find_room_loop name l = some n) : n ∈ l ∧ n.2.name = name := by
  induction l with
  | nil => simp [find_room_loop] at h
  | cons m rest ih =>
    unfold find_room_loop at h
    by_cases hm : m.2.name = name
    · simp only [hm, if_true, Option.some.injEq] at h
      subst h
      exact ⟨List.mem_cons_self _ _, hm⟩
    · simp only [hm, if_false] at h
      exact ⟨List.mem_cons_of_mem _ (ih h).1, (ih h).2⟩

theorem find_room_loop_store (name : CStr) (l : List (Ptr × Room)) (p : Ptr) (r v : Room)
    (h : find_room_loop name l = some (p, r)) (hv : v.name = name) :
    find_room_loop name (store l p v) = some (p, v) := by
  induction l with
  | nil => simp [find_room_loop] at h
  | cons m rest ih =>
    unfold find_room_loop at h
    by_cases hp : m.1 = p
    · simp [store, find_room_loop, hp, hv]
    · by_cases hm : m.2.name = name
      · simp only [hm, if_true, Option.some.injEq] at h
        rw [h] at hp
        exact absurd rfl hp
      · simp only [hm, if_false] at h
        have := ih h
        simp only [store] at this
        simp [store, find_room_loop, hp, hm, this]

theorem deref_of_find_room (name : CStr) (l : List (Ptr × Room)) (n : Ptr × Room)
    (hnodup : (l.map Prod.fst).Nodup) (h : find_room_loop name l = some n) :
    deref l n.1 = some n.2 :=
  deref_of_mem l n.1 n.2 hnodup (find_room_loop_some name l n h).1

/-! ## Unregistering -/

/-- C11: remove_user with a socket that no registered session carries leaves the registry
exactly as it is, and when no two registered sessions share a socket, a second remove_user
with the same socket changes nothing after the first. -/
theorem remove_user_absent (s t : Server) (sock : Int)
    (habsent : ∀ n ∈ s.users, n.2.socket ≠ sock)
    (hunique : (t.users.map (fun n => n.2.socket)).Nodup) :
    remove_user s sock = s
      ∧ remove_user (remove_user t sock) sock = remove_user t sock := by
  constructor
  · show (⟨remove_user_loop sock s.users, s.rooms, s.brk⟩ : Server) = s
    rw [remove_user_loop_of_absent sock s.users habsent]
  · show (⟨remove_user_loop sock (remove_user_loop sock t.users), t.rooms, t.brk⟩ : Server)
      = ⟨remove_user_loop sock t.users, t.rooms, t.brk⟩
    have hgone : ∀ n ∈ remove_user_loop sock t.users, n.2.socket ≠ sock := by
      intro n hn
      rw [remove_user_loop_eq_filter sock t.users hunique, List.mem_filter] at hn
      simpa using hn.2
    rw [remove_user_loop_of_absent sock _ hgone]

/-- C11 for socket 4: absent from the registry of socket 5 alone, present once in the
registry of sockets 5 and 4. -/
theorem remove_user_absent_witness :
    (∀ n ∈ (⟨[(2, guest5)], [], 3⟩ : Server).users, n.2.socket ≠ 4)
      ∧ ((⟨[(2, guest5), (1, guest4)], [], 3⟩ : Server).users.map
          (fun n => n.2.socket)).Nodup
      ∧ remove_user ⟨[(2, guest5)], [], 3⟩ 4 = ⟨[(2, guest5)], [], 3⟩
      ∧ remove_user (remove_user ⟨[(2, guest5), (1, guest4)], [], 3⟩ 4) 4
        = remove_user ⟨[(2, guest5), (1, guest4)], [], 3⟩ 4 :=
  ⟨by decide, by decide,
   remove_user_absent ⟨[(2, guest5)], [], 3⟩ ⟨[(2, guest5), (1, guest4)], [], 3⟩ 4
     (by decide) (by decide)⟩

/-! ## Connection setup -/

theorem setup_result (s : Server) (sock : Int) (lobby : Ptr × Room) (r : Room)
    (hlobby : find_room_by_name s "Lobby".toList = some lobby)
    (hr : deref s.rooms lobby.1 = some r) :
    handle_client_setup s sock = some
      (⟨(s.brk, ⟨sock, guest_name sock⟩) :: s.users,
          store s.rooms lobby.1 ⟨r.name, ⟨sock, guest_name sock⟩ :: r.users⟩, s.brk + 1⟩,
        ⟨sock, s.brk, some lobby.1⟩,
        broadcast_room ⟨r.name, ⟨sock, guest_name sock⟩ :: r.users⟩
          (snprintf BUFFER_SIZE ("User ".toList ++ guest_name sock ++ " joined room ".toList
            ++ r.name ++ "\n".toList))
          ⟨sock, guest_name sock⟩) := by
  unfold find_room_by_name at hlobby
  simp only [handle_client_setup, add_user, find_room_by_name, hlobby, call_join_room, deref,
    if_true, hr, join_room, strncpy_guest_name]

theorem setup_without_lobby (s : Server) (sock : Int)
    (hlobby : find_room_by_name s "Lobby".toList = none) :
    handle_client_setup s sock = some
      (⟨(s.brk, ⟨sock, guest_name sock⟩) :: s.users, s.rooms, s.brk + 1⟩,
        ⟨sock, s.brk, none⟩, []) := by
  unfold find_room_by_name at hlobby
  simp only [handle_client_setup, add_user, find_room_by_name, hlobby, strncpy_guest_name]

theorem deref_isSome_of_find_room (name : CStr) (l : List (Ptr × Room)) (n : Ptr × Room)
    (h : find_room_loop name l = some n) : ∃ r, deref l n.1 = some r := by
  induction l with
  | nil => simp [find_room_loop] at h
  | cons m rest ih =>
    unfold find_room_loop at h
    by_cases hp : m.1 = n.1
    · exact ⟨m.2, by simp [deref, hp]⟩
    · by_cases hm : m.2.name = name
      · simp only [hm, if_true, Option.some.injEq] at h
        rw [h] at hp
        exact absurd rfl hp
      · simp only [hm, if_false] at h
        obtain ⟨r, hr⟩ := ih h
        exact ⟨r, by simp [deref, hp, hr]⟩

/-- C12: in every state whose room list holds a room named Lobby (room nodes being distinct
allocations), the connection setup of handle_client for a socket succeeds, and afterwards
the room found under the name Lobby is the same room with an entry for that socket put at the
head of its member list. -/
theorem setup_joins_lobby (s : Server) (sock : Int) (lobby : Ptr × Room)
    (hok : rooms_ok s) (hlobby : find_room_by_name s "Lobby".toList = some lobby) :
    ∃ s1 c out, handle_client_setup s sock = some (s1, c, out)
      ∧ c.lobby = some lobby.1
      ∧ find_room_by_name s1 "Lobby".toList
        = some (lobby.1, ⟨"Lobby".toList, ⟨sock, guest_name sock⟩ :: lobby.2.users⟩)
      ∧ sock ∈ (⟨sock, guest_name sock⟩ :: lobby.2.users).map User.socket := by
  have hfound := find_room_loop_some "Lobby".toList s.rooms lobby hlobby
  have hr : deref s.rooms lobby.1 = some lobby.2 :=
    deref_of_find_room "Lobby".toList s.rooms lobby hok.1 hlobby
  refine ⟨_, _, _, setup_result s sock lobby lobby.2 hlobby hr, rfl, ?_, ?_⟩
  · show find_room_loop "Lobby".toList (store s.rooms lobby.1 _) = _
    rw [hfound.2]
    exact find_room_loop_store "Lobby".toList s.rooms lobby.1 lobby.2 _ hlobby rfl
  · simp

/-- C12 at the state in which main enters the accept loop, for socket 4. -/
theorem setup_joins_lobby_witness :
    rooms_ok main_init.server
      ∧ find_room_by_name main_init.server "Lobby".toList = some (0, ⟨"Lobby".toList, []⟩)
      ∧ ∃ s1 c out, handle_client_setup main_init.server 4 = some (s1, c, out)
        ∧ c.lobby = some (0, (⟨"Lobby".toList, []⟩ : Room)).1
        ∧ find_room_by_name s1 "Lobby".toList
          = some ((0, (⟨"Lobby".toList, []⟩ : Room)).1,
              ⟨"Lobby".toList, ⟨4, guest_name 4⟩
                :: (0, (⟨"Lobby".toList, []⟩ : Room)).2.users⟩)
        ∧ (4 : Int) ∈ (⟨4, guest_name 4⟩
            :: (0, (⟨"Lobby".toList, []⟩ : Room)).2.users).map User.socket :=
  ⟨by decide, by decide,
   setup_joins_lobby main_init.server 4 (0, ⟨"Lobby".toList, []⟩) (by decide) (by decide)⟩

/-- C13: for every connection id n (a C int), the connection setup of handle_client succeeds
and leaves a registry that holds, in front of all the sessions registered before, a session
with socket n and the display name GUEST_ followed by the decimal digits of n;
find_user_by_name for that name returns this session. -/
theorem setup_registers_guest (s : Server) (n : Int)
    (hlo : -2147483648 ≤ n) (hhi : n ≤ 2147483647) :
    ∃ s1 c out, handle_client_setup s n = some (s1, c, out)
      ∧ c.sock = n ∧ c.current_user = s.brk
      ∧ s1.users = (s.brk, ⟨n, "GUEST_".toList ++ fmt_d n⟩) :: s.users
      ∧ find_user_by_name s1 ("GUEST_".toList ++ fmt_d n)
        = some (s.brk, ⟨n, "GUEST_".toList ++ fmt_d n⟩) := by
  have hg := guest_name_eq n hlo hhi
  cases hl : find_room_by_name s "Lobby".toList with
  | none =>
    refine ⟨_, _, _, setup_without_lobby s n hl, rfl, rfl, ?_, ?_⟩
    · simp only [hg]
    · simp only [find_user_by_name, find_user_loop, hg, if_true]
  | some lobby =>
    obtain ⟨r, hr⟩ := deref_isSome_of_find_room "Lobby".toList s.rooms lobby hl
    refine ⟨_, _, _, setup_result s n lobby r hl hr, rfl, rfl, ?_, ?_⟩
    · simp only [hg]
    · simp only [find_user_by_name, find_user_loop, hg, if_true]

/-- C13 for socket 4 at the state in which main enters the accept loop. -/
theorem setup_registers_guest_witness :
    (-2147483648 : Int) ≤ 4 ∧ (4 : Int) ≤ 2147483647
      ∧ "GUEST_".toList ++ fmt_d 4 = "GUEST_4".toList
      ∧ ∃ s1 c out, handle_client_setup main_init.server 4 = some (s1, c, out)
        ∧ c.sock = 4 ∧ c.current_user = main_init.server.brk
        ∧ s1.users = (main_init.server.brk, ⟨4, "GUEST_".toList ++ fmt_d 4⟩)
            :: main_init.server.users
        ∧ find_user_by_name s1 ("GUEST_".toList ++ fmt_d 4)
          = some (main_init.server.brk, ⟨4, "GUEST_".toList ++ fmt_d 4⟩) :=
  ⟨by decide, by decide, by decide,
   setup_registers_guest main_init.server 4 (by decide) (by decide)⟩

/-! ## Leaving a room -/

/-- C14, against leave_room as the spec describes it: for every session and room given by
valid pointers, the call does not fault; afterwards the room lists no entry on the session's
socket and still lists every entry on another socket, every other room and the user registry
are unchanged, and when the session was not a member nothing at all has changed. -/
theorem leave_room_total (s : Server) (up rp : Ptr) (user : User) (room : Room)
    (hok : rooms_ok s) (hu : deref s.users up = some user)
    (hr : deref s.rooms rp = some room) :
    ∃ s1, call_leave_room s up rp = some s1
      ∧ s1.users = s.users
      ∧ deref s1.rooms rp = some (leave_room user room)
      ∧ (∀ m ∈ (leave_room user room).users, m.socket ≠ user.socket)
      ∧ (∀ m ∈ room.users, m.socket ≠ user.socket → m ∈ (leave_room user room).users)
      ∧ (∀ q, q ≠ rp → deref s1.rooms q = deref s.rooms q)
      ∧ (user.socket ∉ room.users.map User.socket → s1 = s)
      ∧ leave_room user (leave_room user room) = leave_room user room := by
  refine ⟨⟨s.users, store s.rooms rp (leave_room user room), s.brk⟩, ?_, rfl, ?_, ?_, ?_, ?_,
    ?_, ?_⟩
  · simp only [call_leave_room, hu, hr]
  · exact deref_store_same s.rooms rp room _ hr
  · intro m hm
    simp only [leave_room, List.mem_filter] at hm
    simpa using hm.2
  · intro m hm hne
    simp only [leave_room, List.mem_filter]
    exact ⟨hm, by simpa using hne⟩
  · intro q hq
    exact deref_store_other s.rooms rp q _ hq
  · intro hnot
    have hsame : leave_room user room = room := by
      have hfil : room.users.filter (fun member => member.socket ≠ user.socket)
          = room.users := by
        rw [List.filter_eq_self]
        intro m hm
        have hne : m.socket ≠ user.socket := fun e => hnot (List.mem_map.mpr ⟨m, hm, e⟩)
        simpa using hne
      simp only [leave_room, hfil]
    rw [hsame, store_deref_self s.rooms rp room hok.1 hr]
  · simp [leave_room]

/-- C14 for socket 5 leaving a Lobby it is in, and a music room it is not in. -/
theorem leave_room_total_witness :
    rooms_ok ⟨[(2, guest5), (1, guest4)],
        [(3, ⟨"music".toList, [guest4]⟩), (0, ⟨"Lobby".toList, [guest5, guest4]⟩)], 4⟩
      ∧ call_leave_room ⟨[(2, guest5), (1, guest4)],
          [(3, ⟨"music".toList, [guest4]⟩), (0, ⟨"Lobby".toList, [guest5, guest4]⟩)], 4⟩ 2 0
        = some ⟨[(2, guest5), (1, guest4)],
          [(3, ⟨"music".toList, [guest4]⟩), (0, ⟨"Lobby".toList, [guest4]⟩)], 4⟩
      ∧ (∃ s1, call_leave_room ⟨[(2, guest5), (1, guest4)],
          [(3, ⟨"music".toList, [guest4]⟩), (0, ⟨"Lobby".toList, [guest5, guest4]⟩)], 4⟩ 2 3
            = some s1
          ∧ s1 = ⟨[(2, guest5), (1, guest4)],
            [(3, ⟨"music".toList, [guest4]⟩), (0, ⟨"Lobby".toList, [guest5, guest4]⟩)], 4⟩) :=
  ⟨by decide, by decide,
   (leave_room_total ⟨[(2, guest5), (1, guest4)],
      [(3, ⟨"music".toList, [guest4]⟩), (0, ⟨"Lobby".toList, [guest5, guest4]⟩)], 4⟩ 2 3
      guest5 ⟨"music".toList, [guest4]⟩ (by decide) (by decide) (by decide)).elim
     (fun s1 h => ⟨s1, h.1, h.2.2.2.2.2.2.1 (by decide)⟩)⟩

/-! ## Room nodes stay distinct allocations -/

theorem store_fst {α : Type} (heap : List (Ptr × α)) (p : Ptr) (v : α) :
    (store heap p v).map Prod.fst = heap.map Prod.fst := by
  induction heap with
  | nil => rfl
  | cons node rest ih =>
    simp only [store] at ih
    by_cases hp : node.1 = p
    · simp [store, hp, ih]
    · simp [store, hp, ih]

theorem rooms_ok_iff (s : Server) :
    rooms_ok s ↔ (s.rooms.map Prod.fst).Nodup ∧ ∀ a ∈ s.rooms.map Prod.fst, a < s.brk := by
  unfold rooms_ok
  constructor
  · rintro ⟨h1, h2⟩
    refine ⟨h1, ?_⟩
    intro a ha
    obtain ⟨node, hn, rfl⟩ := List.mem_map.mp ha
    exact h2 node hn
  · rintro ⟨h1, h2⟩
    exact ⟨h1, fun node hn => h2 node.1 (List.mem_map.mpr ⟨node, hn, rfl⟩)⟩

theorem call_join_room_addrs (s s1 : Server) (up rp : Ptr) (out : List Delivery)
    (h : call_join_room s up rp = some (s1, out)) :
    s1.rooms.map Prod.fst = s.rooms.map Prod.fst ∧ s1.brk = s.brk ∧ s1.users = s.users := by
  unfold call_join_room at h
  cases hu : deref s.users up with
  | none => simp [hu] at h
  | some u =>
    cases hr : deref s.rooms rp with
    | none => simp [hu, hr] at h
    | some r =>
      simp only [hu, hr, Option.some.injEq, Prod.mk.injEq] at h
      rw [← h.1]
      exact ⟨store_fst s.rooms rp _, rfl, rfl⟩

theorem call_leave_room_addrs (s s1 : Server) (up rp : Ptr)
    (h : call_leave_room s up rp = some s1) :
    s1.rooms.map Prod.fst = s.rooms.map Prod.fst ∧ s1.brk = s.brk ∧ s1.users = s.users := by
  unfold call_leave_room at h
  cases hu : deref s.users up with
  | none => simp [hu] at h
  | some u =>
    cases hr : deref s.rooms rp with
    | none => simp [hu, hr] at h
    | some r =>
      simp only [hu, hr, Option.some.injEq] at h
      rw [← h]
      exact ⟨store_fst s.rooms rp _, rfl, rfl⟩

theorem command_rooms (s s1 : Server) (c : Session) (command arg buffer : CStr)
    (out : List Delivery) (cont : Bool)
    (h : handle_client_command s c command arg buffer = some (s1, out, cont)) :
    s.brk ≤ s1.brk ∧ (s1.rooms.map Prod.fst = s.rooms.map Prod.fst
      ∨ (s1.rooms.map Prod.fst = s.brk :: s.rooms.map Prod.fst ∧ s1.brk = s.brk + 1)) := by
  unfold handle_client_command at h
  split at h
  · split at h
    · dsimp only at h
      split at h
      · simp only [Option.some.injEq, Prod.mk.injEq] at h
        rw [← h.1]
        exact ⟨le_refl _, Or.inl rfl⟩
      · simp at h
    · simp at h
  · split at h
    · dsimp only at h
      split at h
      · rename_i _ res heq
        simp only [Option.some.injEq, Prod.mk.injEq] at h
        have hidx := call_join_room_addrs (create_room s arg).1 res.1 c.current_user
          (create_room s arg).2 res.2 heq
        rw [← h.1]
        refine ⟨?_, Or.inr ⟨?_, ?_⟩⟩
        · rw [hidx.2.1]
          exact Nat.le_succ _
        · rw [hidx.1]
          rfl
        · rw [hidx.2.1]
          rfl
      · simp at h
    · split at h
      · split at h
        · split at h
          · rename_i _ room hfind _ res heq
            simp only [Option.some.injEq, Prod.mk.injEq] at h
            have hidx := call_join_room_addrs s res.1 c.current_user room.1 res.2 heq
            rw [← h.1]
            exact ⟨le_of_eq hidx.2.1.symm, Or.inl hidx.1⟩
          · simp at h
        · simp only [Option.some.injEq, Prod.mk.injEq] at h
          rw [← h.1]
          exact ⟨le_refl _, Or.inl rfl⟩
      · split at h
        · split at h
          · split at h
            · rename_i _ room hfind _ s2 heq
              simp only [Option.some.injEq, Prod.mk.injEq] at h
              have hidx := call_leave_room_addrs s s2 c.current_user room.1 heq
              rw [← h.1]
              exact ⟨le_of_eq hidx.2.1.symm, Or.inl hidx.1⟩
            · simp at h
          · simp only [Option.some.injEq, Prod.mk.injEq] at h
            rw [← h.1]
            exact ⟨le_refl _, Or.inl rfl⟩
        · split at h
          · simp only [Option.some.injEq, Prod.mk.injEq] at h
            rw [← h.1]
            exact ⟨le_refl _, Or.inl rfl⟩
          · split at h
            · simp only [Option.some.injEq, Prod.mk.injEq] at h
              rw [← h.1]
              exact ⟨le_refl _, Or.inl rfl⟩
            · simp at h

theorem setup_rooms (s s1 : Server) (sock : Int) (c : Session) (out : List Delivery)
    (h : handle_client_setup s sock = some (s1, c, out)) :
    s.brk ≤ s1.brk ∧ s1.rooms.map Prod.fst = s.rooms.map Prod.fst := by
  cases hl : find_room_by_name s "Lobby".toList with
  | none =>
    rw [setup_without_lobby s sock hl] at h
    simp only [Option.some.injEq, Prod.mk.injEq] at h
    rw [← h.1]
    exact ⟨Nat.le_succ _, rfl⟩
  | some lobby =>
    obtain ⟨r, hr⟩ := deref_isSome_of_find_room "Lobby".toList s.rooms lobby hl
    rw [setup_result s sock lobby r hl hr] at h
    simp only [Option.some.injEq, Prod.mk.injEq] at h
    rw [← h.1]
    exact ⟨Nat.le_succ _, store_fst s.rooms lobby.1 _⟩

theorem step_rooms (w w1 : World) (e : Event) (out : List Delivery)
    (h : step w e = some (w1, out)) :
    w.server.brk ≤ w1.server.brk
      ∧ (w1.server.rooms.map Prod.fst = w.server.rooms.map Prod.fst
        ∨ (w1.server.rooms.map Prod.fst = w.server.brk :: w.server.rooms.map Prod.fst
          ∧ w1.server.brk = w.server.brk + 1)) := by
  cases e with
  | connect sock =>
    simp only [step] at h
    split at h
    · rename_i _ res heq
      simp only [Option.some.injEq, Prod.mk.injEq] at h
      have hs := setup_rooms w.server res.1 sock res.2.1 res.2.2 heq
      rw [← h.1]
      exact ⟨hs.1, Or.inl hs.2⟩
    · simp at h
  | recv sock command arg buffer =>
    simp only [step] at h
    split at h
    · rename_i _ c hc
      split at h
      · rename_i _ res heq
        have hs := command_rooms w.server res.1 c command arg buffer res.2.1 res.2.2 heq
        split at h
        · simp only [Option.some.injEq, Prod.mk.injEq] at h
          rw [← h.1]
          exact hs
        · simp only [Option.some.injEq, Prod.mk.injEq] at h
          rw [← h.1]
          exact hs
      · simp at h
    · simp only [Option.some.injEq, Prod.mk.injEq] at h
      rw [← h.1]
      exact ⟨le_refl _, Or.inl rfl⟩
  | hangup sock =>
    simp only [step] at h
    split at h
    · simp only [Option.some.injEq, Prod.mk.injEq] at h
      rw [← h.1]
      exact ⟨le_refl _, Or.inl rfl⟩
    · simp only [Option.some.injEq, Prod.mk.injEq] at h
      rw [← h.1]
      exact ⟨le_refl _, Or.inl rfl⟩

theorem rooms_ok_of_grown (s s1 : Server) (hok : rooms_ok s) (hbrk : s.brk ≤ s1.brk)
    (h : s1.rooms.map Prod.fst = s.rooms.map Prod.fst
      ∨ (s1.rooms.map Prod.fst = s.brk :: s.rooms.map Prod.fst ∧ s1.brk = s.brk + 1)) :
    rooms_ok s1 := by
  rw [rooms_ok_iff] at hok ⊢
  rcases h with h | ⟨h, hb⟩
  · rw [h]
    exact ⟨hok.1, fun a ha => Nat.lt_of_lt_of_le (hok.2 a ha) hbrk⟩
  · rw [h, List.nodup_cons]
    refine ⟨⟨?_, hok.1⟩, ?_⟩
    · intro hmem
      exact Nat.lt_irrefl _ (hok.2 _ hmem)
    · intro a ha
      rcases List.mem_cons.mp ha with ha | ha
      · rw [ha, hb]
        exact Nat.lt_succ_self _
      · exact Nat.lt_of_lt_of_le (hok.2 a ha) hbrk

theorem run_rooms (events : List Event) (w w1 : World) (out : List Delivery)
    (hok : rooms_ok w.server) (h : run w events = some (w1, out)) :
    rooms_ok w1.server := by
  induction events generalizing w out with
  | nil =>
    simp only [run, Option.some.injEq, Prod.mk.injEq] at h
    rw [← h.1]
    exact hok
  | cons e rest ih =>
    simp only [run] at h
    split at h
    · rename_i _ r1 h1
      split at h
      · rename_i _ r2 h2
        simp only [Option.some.injEq, Prod.mk.injEq] at h
        obtain ⟨hw, _⟩ := h
        subst hw
        have hs := step_rooms w r1.1 e r1.2 h1
        have hok1 := rooms_ok_of_grown w.server r1.1.server hok hs.1 hs.2
        exact ih r1.1 r2.2 hok1 h2
      · simp at h
    · simp at h

/-! ## Login -/

theorem login_result (s : Server) (c : Session) (u : User) (lobby : Ptr) (room : Room)
    (arg buffer : CStr) (hu : deref s.users c.current_user = some u)
    (hl : c.lobby = some lobby) (hr : deref s.rooms lobby = some room) :
    handle_client_command s c "login".toList arg buffer = some
      (⟨store s.users c.current_user ⟨u.socket, strncpy arg (MAX_USERNAME - 1)⟩, s.rooms,
          s.brk⟩,
        broadcast_room room
          (snprintf BUFFER_SIZE ("User ".toList ++ arg ++ " logged in\n".toList))
          ⟨u.socket, strncpy arg (MAX_USERNAME - 1)⟩,
        true) := by
  have hs := deref_store_same s.users c.current_user u
    ⟨u.socket, strncpy arg (MAX_USERNAME - 1)⟩ hu
  simp only [handle_client_command, if_true, hu, call_broadcast_room, hl, hr, hs]

theorem login_keeps_rooms (s : Server) (c : Session) (arg buffer : CStr)
    (r : Server × List Delivery × Bool)
    (h : handle_client_command s c "login".toList arg buffer = some r) :
    r.1.rooms = s.rooms := by
  simp only [handle_client_command, if_true] at h
  split at h
  · split at h
    · simp only [Option.some.injEq] at h
      rw [← h]
    · simp at h
  · simp at h

/-- C16 fails as stated: socket 4 connects, sends `create Lobby` and `create music`, then
socket 5 connects and sends `join music`. Sockets 4 and 5 now share music and the newer
Lobby, but `login alice` from socket 4 delivers nothing at all: the notice goes only to the
Lobby found when 4 connected, which lists 4 alone. A name of 40 bytes is stored cut to 31. -/
theorem login_notice_counterexample :
    (run main_init [Event.connect 4,
        Event.recv 4 "create".toList "Lobby".toList "create Lobby".toList,
        Event.recv 4 "create".toList "music".toList "create music".toList,
        Event.connect 5,
        Event.recv 5 "join".toList "music".toList "join music".toList]).map
          (fun r => r.1.server.rooms)
        = some [(3, ⟨"music".toList, [guest5, guest4]⟩),
            (2, ⟨"Lobby".toList, [guest5, guest4]⟩), (0, ⟨"Lobby".toList, [guest4]⟩)]
      ∧ last_output main_init [Event.connect 4,
          Event.recv 4 "create".toList "Lobby".toList "create Lobby".toList,
          Event.recv 4 "create".toList "music".toList "create music".toList,
          Event.connect 5,
          Event.recv 5 "join".toList "music".toList "join music".toList]
          (Event.recv 4 "login".toList "alice".toList "login alice".toList)
        = some []
      ∧ (run main_init [Event.connect 4,
          Event.recv 4 "login".toList (List.replicate 40 'x') []]).map
            (fun r => r.1.server.users)
        = some [(1, ⟨4, List.replicate 31 'x'⟩)] := by
  decide

/-- C16, amended: `login n` writes the first 31 bytes of n over the session's display name
in the user registry, leaves every room as it is, and sends the notice `User n logged in`
through broadcast_room to one room only, the Lobby found when the session connected: to
every entry of that room on another socket, under the new name. -/
theorem login_renames_and_tells_lobby (s : Server) (c : Session) (u : User) (lobby : Ptr)
    (room : Room) (arg buffer : CStr) (hu : deref s.users c.current_user = some u)
    (hl : c.lobby = some lobby) (hr : deref s.rooms lobby = some room) :
    ∃ s1 out, handle_client_command s c "login".toList arg buffer = some (s1, out, true)
      ∧ s1.rooms = s.rooms
      ∧ deref s1.users c.current_user = some ⟨u.socket, arg.take 31⟩
      ∧ out = broadcast_room room
          (snprintf BUFFER_SIZE ("User ".toList ++ arg ++ " logged in\n".toList))
          ⟨u.socket, arg.take 31⟩
      ∧ out.map Delivery.dest
        = (room.users.map User.socket).filter (fun k => k ≠ u.socket) := by
  refine ⟨_, _, login_result s c u lobby room arg buffer hu hl hr, rfl, ?_, rfl, ?_⟩
  · exact deref_store_same s.users c.current_user u _ hu
  · show (broadcast_loop _ _ _ room.users).map Delivery.dest = _
    rw [broadcast_loop_eq_filter_map, List.map_map, List.filter_map]
    rfl

/-- C16, amended, for socket 4 logging in as alice while sockets 5 and 4 are in Lobby. -/
theorem login_renames_and_tells_lobby_witness :
    deref [(2, guest5), (1, guest4)] 1 = some guest4
      ∧ deref [(0, (⟨"Lobby".toList, [guest5, guest4]⟩ : Room))] 0
        = some ⟨"Lobby".toList, [guest5, guest4]⟩
      ∧ ∃ s1 out, handle_client_command
          ⟨[(2, guest5), (1, guest4)], [(0, ⟨"Lobby".toList, [guest5, guest4]⟩)], 3⟩
          ⟨4, 1, some 0⟩ "login".toList "alice".toList "login alice".toList
            = some (s1, out, true)
        ∧ s1.rooms = [(0, ⟨"Lobby".toList, [guest5, guest4]⟩)]
        ∧ deref s1.users 1 = some ⟨4, "alice".toList⟩
        ∧ out = [⟨5, "[Lobby] alice: User alice logged in\n\n".toList⟩] :=
  ⟨by decide, by decide,
   (login_renames_and_tells_lobby
      ⟨[(2, guest5), (1, guest4)], [(0, ⟨"Lobby".toList, [guest5, guest4]⟩)], 3⟩
      ⟨4, 1, some 0⟩ guest4 0 ⟨"Lobby".toList, [guest5, guest4]⟩ "alice".toList
      "login alice".toList (by decide) (by decide) (by decide)).elim
     (fun s1 h1 => h1.elim (fun out h =>
       ⟨s1, out, h.1, h.2.1, h.2.2.1, h.2.2.2.1.trans (by decide)⟩))⟩

/-! ## Member entries are copies -/

theorem connect_then_login (id : Int) :
    (run main_init [Event.connect id,
        Event.recv id "login".toList "alice".toList "login alice".toList]).map
          (fun r => r.1.server)
      = some ⟨[(1, ⟨id, "alice".toList⟩)],
          [(0, ⟨"Lobby".toList, [⟨id, guest_name id⟩]⟩)], 2⟩ := by
  have halice : strncpy ['a', 'l', 'i', 'c', 'e'] (MAX_USERNAME - 1)
      = ['a', 'l', 'i', 'c', 'e'] := by decide
  simp [run, step, main_init, handle_client_setup, add_user, create_room, find_room_by_name,
    find_room_loop, call_join_room, deref, store, join_room, strncpy_lobby, strncpy_guest_name,
    broadcast_room, broadcast_loop, thread_of, handle_client_command, call_broadcast_room,
    halice]

/-- C17: a room member entry is a copy of the session record. After a session connects on
socket id (which joins Lobby) and sends `login alice`, the user registry names it alice
while its entry in Lobby still carries GUEST_ followed by the digits of id; and no `login`
command ever changes a room. -/
theorem member_entry_is_a_copy (id : Int) (hlo : -2147483648 ≤ id) (hhi : id ≤ 2147483647) :
    (run main_init [Event.connect id,
        Event.recv id "login".toList "alice".toList "login alice".toList]).map
          (fun r => r.1.server)
        = some ⟨[(1, ⟨id, "alice".toList⟩)],
            [(0, ⟨"Lobby".toList, [⟨id, "GUEST_".toList ++ fmt_d id⟩]⟩)], 2⟩
      ∧ "GUEST_".toList ++ fmt_d id ≠ "alice".toList
      ∧ (∀ (s : Server) (c : Session) (arg buffer : CStr) (r : Server × List Delivery × Bool),
          handle_client_command s c "login".toList arg buffer = some r → r.1.rooms = s.rooms)
      ∧ ∀ (user : User) (room : Room), (join_room user room).1.users = user :: room.users := by
  refine ⟨?_, ?_, ?_, fun _ _ => rfl⟩
  · rw [connect_then_login id, guest_name_eq id hlo hhi]
  · simp
  · intro s c arg buffer r h
    exact login_keeps_rooms s c arg buffer r h

/-- C17 for socket 4. -/
theorem member_entry_is_a_copy_witness :
    (-2147483648 : Int) ≤ 4 ∧ (4 : Int) ≤ 2147483647
      ∧ (run main_init [Event.connect 4,
          Event.recv 4 "login".toList "alice".toList "login alice".toList]).map
            (fun r => r.1.server)
        = some ⟨[(1, ⟨4, "alice".toList⟩)], [(0, ⟨"Lobby".toList, [guest4]⟩)], 2⟩ :=
  ⟨by decide, by decide,
   ((member_entry_is_a_copy 4 (by decide) (by decide)).1).trans (by decide)⟩

/-! ## Broadcast as a filter -/

/-- C18: the destinations of the deliveries of broadcast_room are the sockets of the member
list, in list order, without those equal to the sender's socket; every delivery carries the
same line; join_room puts the newest entry first; and a plain message, which the dispatcher
hands to broadcast_room, leaves the user registry and every room as they are. -/
theorem broadcast_room_is_filter (room : Room) (message : CStr) (sender : User) :
    (broadcast_room room message sender).map Delivery.dest
        = (room.users.map User.socket).filter (fun k => k ≠ sender.socket)
      ∧ (broadcast_room room message sender).map Delivery.text
        = List.replicate (broadcast_room room message sender).length
            (snprintf BUFFER_SIZE ("[".toList ++ room.name ++ "] ".toList ++ sender.username
              ++ ": ".toList ++ message ++ "\n".toList))
      ∧ (∀ user : User, (join_room user room).1.users = user :: room.users)
      ∧ ∀ (s : Server) (c : Session) (command arg : CStr) (lobby : Ptr),
          command ≠ "login".toList → command ≠ "create".toList → command ≠ "join".toList →
          command ≠ "leave".toList → command ≠ "exit".toList → command ≠ "logout".toList →
          c.lobby = some lobby → deref s.rooms lobby = some room →
          deref s.users c.current_user = some sender →
          handle_client_command s c command arg message
            = some (s, broadcast_room room message sender, true) := by
  refine ⟨?_, ?_, fun _ => rfl, ?_⟩
  · show (broadcast_loop _ _ _ room.users).map Delivery.dest = _
    rw [broadcast_loop_eq_filter_map, List.map_map, List.filter_map]
    rfl
  · show (broadcast_loop _ _ _ room.users).map Delivery.text
      = List.replicate (broadcast_loop _ _ _ room.users).length _
    rw [broadcast_loop_eq_filter_map, List.map_map, List.length_map]
    refine List.eq_replicate_iff.mpr ⟨by simp, ?_⟩
    intro b hb
    obtain ⟨m, _, rfl⟩ := List.mem_map.mp hb
    rfl
  · intro s c command arg lobby h1 h2 h3 h4 h5 h6 hl hr hu
    simp only [handle_client_command, h1, h2, h3, h4, h5, h6, if_false, or_self,
      call_broadcast_room, hl, hr, hu]

/-- C18 for GUEST_4 saying hi in a Lobby that lists sockets 6, 4 and 5, as a function and as
a plain message through the dispatcher. -/
theorem broadcast_room_is_filter_witness :
    (broadcast_room ⟨"Lobby".toList, [guest6, guest4, guest5]⟩ "hi".toList guest4).map
        Delivery.dest = [6, 5]
      ∧ handle_client_command
          ⟨[(3, guest6), (2, guest5), (1, guest4)],
            [(0, ⟨"Lobby".toList, [guest6, guest4, guest5]⟩)], 4⟩
          ⟨4, 1, some 0⟩ "hi".toList [] "hi".toList
        = some (⟨[(3, guest6), (2, guest5), (1, guest4)],
            [(0, ⟨"Lobby".toList, [guest6, guest4, guest5]⟩)], 4⟩,
          [⟨6, "[Lobby] GUEST_4: hi\n".toList⟩, ⟨5, "[Lobby] GUEST_4: hi\n".toList⟩],
          true) :=
  ⟨((broadcast_room_is_filter ⟨"Lobby".toList, [guest6, guest4, guest5]⟩ "hi".toList
      guest4).1).trans (by decide),
   ((broadcast_room_is_filter ⟨"Lobby".toList, [guest6, guest4, guest5]⟩ "hi".toList
      guest4).2.2.2
      ⟨[(3, guest6), (2, guest5), (1, guest4)],
        [(0, ⟨"Lobby".toList, [guest6, guest4, guest5]⟩)], 4⟩
      ⟨4, 1, some 0⟩ "hi".toList [] 0
      (by decide) (by decide) (by decide) (by decide) (by decide) (by decide)
      (by decide) (by decide) (by decide)).trans (by decide)⟩

/-! ## A new room shadows older rooms of its name -/

theorem create_command_result (s : Server) (c : Session) (u : User) (arg buffer : CStr)
    (hu : deref s.users c.current_user = some u) :
    handle_client_command s c "create".toList arg buffer = some
      (⟨s.users, store ((s.brk, ⟨strncpy arg (MAX_USERNAME - 1), []⟩) :: s.rooms) s.brk
          ⟨strncpy arg (MAX_USERNAME - 1), [u]⟩, s.brk + 1⟩,
        broadcast_room ⟨strncpy arg (MAX_USERNAME - 1), [u]⟩
          (snprintf BUFFER_SIZE ("User ".toList ++ u.username ++ " joined room ".toList
            ++ strncpy arg (MAX_USERNAME - 1) ++ "\n".toList)) u,
        true) := by
  have hne : ¬ ("create".toList = "login".toList) := by decide
  simp only [handle_client_command, hne, if_false, if_true, create_room, call_join_room, hu,
    deref, join_room]

/-- C19 fails as stated: sockets 4 and 5 connect, socket 4 sends `create Lobby`, then
socket 6 connects. The Lobby that socket 6 is joined to, the one find_room_by_name now
returns, lists socket 4, which connected earlier; it does not list socket 5. -/
theorem create_lobby_counterexample :
    (run main_init [Event.connect 4, Event.connect 5,
        Event.recv 4 "create".toList "Lobby".toList "create Lobby".toList,
        Event.connect 6]).map
          (fun r => (r.1.server.rooms, find_room_by_name r.1.server "Lobby".toList))
        = some ([(3, ⟨"Lobby".toList, [guest6, guest4]⟩),
              (0, ⟨"Lobby".toList, [guest5, guest4]⟩)],
            some (3, ⟨"Lobby".toList, [guest6, guest4]⟩))
      ∧ guest4 ∈ [guest6, guest4] ∧ guest5 ∉ [guest6, guest4] := by
  decide

/-- C19, amended: for every name shorter than 31 bytes, after create_room the call
find_room_by_name returns the room just created, with no members, whatever older rooms of
that name exist. After a `create Lobby` command the room found as Lobby lists the session
that sent the command and nobody else, and a session connecting next is joined to that room,
which then lists the newcomer and the creator only. -/
theorem created_room_shadows (s : Server) (c : Session) (u : User) (name buffer : CStr)
    (n : Int) (hname : name.length < 31) (hu : deref s.users c.current_user = some u) :
    find_room_by_name (create_room s name).1 name = some ((create_room s name).2, ⟨name, []⟩)
      ∧ ∃ s1 out1, handle_client_command s c "create".toList "Lobby".toList buffer
            = some (s1, out1, true)
          ∧ find_room_by_name s1 "Lobby".toList = some (s.brk, ⟨"Lobby".toList, [u]⟩)
          ∧ ∃ s2 c2 out2, handle_client_setup s1 n = some (s2, c2, out2)
              ∧ c2.lobby = some s.brk
              ∧ find_room_by_name s2 "Lobby".toList
                = some (s.brk, ⟨"Lobby".toList, [⟨n, guest_name n⟩, u]⟩) := by
  have hfit : strncpy name (MAX_USERNAME - 1) = name := by
    unfold strncpy
    apply List.take_of_length_le
    simp only [MAX_USERNAME]
    omega
  have hlobby : strncpy "Lobby".toList (MAX_USERNAME - 1) = "Lobby".toList := by decide
  constructor
  · simp only [find_room_by_name, create_room, find_room_loop, hfit, if_true]
  · have hfound : find_room_by_name
        (⟨s.users, store ((s.brk, ⟨"Lobby".toList, []⟩) :: s.rooms) s.brk
          ⟨"Lobby".toList, [u]⟩, s.brk + 1⟩ : Server) "Lobby".toList
        = some (s.brk, ⟨"Lobby".toList, [u]⟩) := by
      simp [find_room_by_name, store, find_room_loop]
    have hderef : deref (store ((s.brk, (⟨"Lobby".toList, []⟩ : Room)) :: s.rooms) s.brk
        ⟨"Lobby".toList, [u]⟩) s.brk = some ⟨"Lobby".toList, [u]⟩ := by
      simp [store, deref]
    have h := create_command_result s c u "Lobby".toList buffer hu
    rw [hlobby] at h
    refine ⟨_, _, h, hfound, ?_⟩
    refine ⟨_, _, _, setup_result _ n (s.brk, ⟨"Lobby".toList, [u]⟩) ⟨"Lobby".toList, [u]⟩
      hfound hderef, rfl, ?_⟩
    simp [find_room_by_name, store, find_room_loop]

/-- C19, amended, for the name music over an older music room with a member, and for socket
4 sending `create Lobby` before socket 6 connects. -/
theorem created_room_shadows_witness :
    "music".toList.length < 31
      ∧ deref [(2, guest5), (1, guest4)] 1 = some guest4
      ∧ find_room_by_name
          (create_room ⟨[(2, guest5), (1, guest4)],
            [(3, ⟨"music".toList, [guest5]⟩), (0, ⟨"Lobby".toList, [guest5, guest4]⟩)], 4⟩
            "music".toList).1 "music".toList
        = some (4, ⟨"music".toList, []⟩) :=
  ⟨by decide, by decide,
   ((created_room_shadows ⟨[(2, guest5), (1, guest4)],
      [(3, ⟨"music".toList, [guest5]⟩), (0, ⟨"Lobby".toList, [guest5, guest4]⟩)], 4⟩
      ⟨4, 1, some 0⟩ guest4 "music".toList "create Lobby".toList 6 (by decide)
      (by decide)).1).trans (by decide)⟩

end ChatServer
